import Mathlib

/-!
Shallow embedding of the schema-driven binary record codec in src/main.cpp.

Buffers (std::vector of char) are modelled as List Nat whose entries are byte
values below 256; every operation of the code only ever stores values below
256.  Machine integers (uint64_t, size_t, uint8_t) are modelled as Nat with
explicit reductions modulo 2 ^ 64 or 256 exactly where the C++ arithmetic
truncates.  Exceptions thrown by the code are modelled with Except String,
carrying the thrown message (the C++ messages wrap the field name in single
quote characters; the model omits those two quote characters and keeps the
rest of the message verbatim).

One modelling caveat, flagged where it matters: when a field's byte span is 9
bytes (bitOffset mod 8 + bitLength exceeding 64), the C++ memcpy between the
buffer and the 8-byte uint64_t chunk carrier reads and writes past the
carrier (undefined behavior), and the per-byte clear loop shifts a uint64_t
by 64 (also undefined).  The model resolves these by truncating the carrier
to its 64 bits: the ninth chunk byte is 0 and an over-shift yields 0.  Every
refutation that exercises this regime is robust to that choice, because the
bits it shows to be lost are discarded by the 64-bit carrier before the
undefined memcpy happens.
-/

/-- FieldType from src/main.cpp: the closed variant set of field kinds. -/
inductive FieldType : Type where
  | UINT8 | UINT16 | UINT32 | INT32 | BLOB | BITFIELD
deriving DecidableEq, Repr

/-- FieldDesc from src/main.cpp: one compiled field descriptor. -/
structure FieldDesc : Type where
  name : String
  type : FieldType
  size : Nat
  offset : Nat
  bitOffset : Nat
  bitLength : Nat
deriving DecidableEq, Repr

instance : Inhabited FieldDesc := ⟨⟨"", FieldType.BITFIELD, 0, 0, 0, 0⟩⟩

/-- First byte touched by a bit span: byte0 = bitOffset / 8 (readBits and
writeBits in src/main.cpp compute this inline). -/
def byte0 (bitOffset : Nat) : Nat := bitOffset / 8

/-- Last byte touched by a bit span: byte1 = (bitOffset + bitWidth - 1) / 8. -/
def byte1 (bitOffset bitWidth : Nat) : Nat := (bitOffset + bitWidth - 1) / 8

/-- Length in bytes of the inclusive byte span [byte0, byte1]; this is the
count byte1 - byte0 + 1 passed to both memcpy calls in src/main.cpp. -/
def spanBytes (bitOffset bitWidth : Nat) : Nat :=
  byte1 bitOffset bitWidth - byte0 bitOffset + 1

/-- Mask computation shared by readBits and writeBits:
mask = (bitWidth == 64 ? ~0ull : ((1ull << bitWidth) - 1)). -/
def mask64 (bitWidth : Nat) : Nat :=
  if bitWidth = 64 then 2 ^ 64 - 1 else (1 <<< bitWidth) - 1

/-- Little-endian load of n bytes starting at index b0, modelling
memcpy(&chunk, buf.data() + byte0, n): byte k lands at bit position 8 * k of
the chunk.  The caller reduces the result modulo 2 ^ 64, because chunk is a
uint64_t (for n = 9 the C++ memcpy writes past the carrier, UB; the model
keeps only the 64 carrier bits). -/
def leChunk (b0 : Nat) : Nat → List Nat → Nat
  | 0, _ => 0
  | k + 1, buf => leChunk b0 k buf + (buf.getD (b0 + k) 0) * 2 ^ (8 * k)

/-- Little-endian store of the low n bytes of chunk at index b0, modelling
memcpy(buf.data() + byte0, &chunk, n).  Byte k of the carrier is
(chunk >>> (8 * k)) &&& 255; for k = 8 the C++ memcpy reads past the 8-byte
carrier (UB), which the model resolves as the byte 0 since chunk < 2 ^ 64.
Note this is a plain overwrite of each touched byte, not an OR-merge. -/
def storeChunk (b0 chunk : Nat) : Nat → List Nat → List Nat
  | 0, buf => buf
  | k + 1, buf => (storeChunk b0 chunk k buf).set (b0 + k) ((chunk >>> (8 * k)) &&& 255)

/-- Clear loop of writeBits: for each touched byte b = byte0 + k the code does
buf[b] &= ~(((mask << shift) >> (k * 8)) & 0xFF).  The complement is taken in
uint8_t, hence 255 - x for x < 256.  mask << shift is uint64_t arithmetic,
modelled modulo 2 ^ 64; for k = 8 the C++ shift by 64 is UB, modelled as 0. -/
def clearLoop (b0 shift mask : Nat) : Nat → List Nat → List Nat
  | 0, buf => buf
  | k + 1, buf =>
    let prev := clearLoop b0 shift mask k buf
    prev.set (b0 + k)
      ((prev.getD (b0 + k) 0) &&& (255 - ((((mask <<< shift) % 2 ^ 64) >>> (8 * k)) &&& 255)))

/-- readBits from src/main.cpp: load the touched bytes little-endian into a
64-bit chunk, shift right by bitOffset mod 8, and mask to bitWidth bits. -/
def readBits (buf : List Nat) (bitOffset bitWidth : Nat) : Nat :=
  ((leChunk (byte0 bitOffset) (spanBytes bitOffset bitWidth) buf % 2 ^ 64)
      >>> (bitOffset % 8)) &&& mask64 bitWidth

/-- writeBits from src/main.cpp: clear the field's bits byte by byte, then
memcpy the shifted masked value over the whole touched span.  The final
memcpy overwrites every bit of the touched bytes with chunk bytes (the
cleared neighbor bits are replaced by the zero bits of the chunk, not merged
back). -/
def writeBits (buf : List Nat) (bitOffset bitWidth value : Nat) : List Nat :=
  storeChunk (byte0 bitOffset)
    (((value &&& mask64 bitWidth) <<< (bitOffset % 8)) % 2 ^ 64)
    (spanBytes bitOffset bitWidth)
    (clearLoop (byte0 bitOffset) (bitOffset % 8) (mask64 bitWidth)
      (spanBytes bitOffset bitWidth) buf)

/-- BinarySchema from src/main.cpp.  The name2idx member (an unordered_map
built by assignment in declaration order, so a repeated name keeps the last
index) is modelled as a lookup function. -/
structure BinarySchema : Type where
  fields : List FieldDesc
  name2idx : String → Option Nat
  totalSize : Nat
  totalBits : Nat

/-- Construction of name2idx: the C++ loop runs i over the fields in order
and performs name2idx[fields[i].name] = i, so a later field with the same
name overwrites the entry of an earlier one.  The model looks in the suffix
first, which gives exactly that last-write-wins resolution. -/
def buildIdx : List FieldDesc → Nat → String → Option Nat
  | [], _, _ => none
  | fd :: rest, i, s =>
    match buildIdx rest (i + 1) s with
    | some j => some j
    | none => if fd.name = s then some i else none

/-- Loop body of BinarySchema::loadSchema: walks the declarations (name,
bitLength pairs) keeping the bit cursor and the fields pushed so far.  The
declared width is first narrowed to uint8_t — the code reads it with
get<uint8_t>(), an unchecked static_cast, so the model takes it modulo 256 —
and only the narrowed width is validated (a declared 320 wraps to 64 and
passes).  On an invalid narrowed bitLength it stops with the thrown message,
returning the fields already pushed (the C++ code pushes into the member
vector before the throw, so they survive the exception). -/
def loadSchemaAux : List (String × Nat) → Nat → List FieldDesc →
    List FieldDesc × Nat × Option String
  | [], cursorBits, acc => (acc, cursorBits, none)
  | (n, w) :: rest, cursorBits, acc =>
    if 0 < w % 256 ∧ w % 256 ≤ 64 then
      loadSchemaAux rest (cursorBits + w % 256)
        (acc ++ [{ name := n, type := FieldType.BITFIELD, size := (w % 256 + 7) / 8,
                   offset := cursorBits / 8, bitOffset := cursorBits,
                   bitLength := w % 256 }])
    else (acc, cursorBits, some ("Invalid bitLength for field: " ++ n))

/-- BinarySchema::loadSchema from src/main.cpp.  On success totalBits,
totalSize and name2idx are set; on a thrown exception the schema object keeps
the fields pushed before the throw while totalBits, totalSize and name2idx
keep their default-constructed values (0, 0, empty map).  The second
component carries the thrown message, if any. -/
def loadSchema (decls : List (String × Nat)) : BinarySchema × Option String :=
  match loadSchemaAux decls 0 [] with
  | (fs, cursorBits, none) =>
    ({ fields := fs, name2idx := buildIdx fs 0, totalSize := (cursorBits + 7) / 8,
       totalBits := cursorBits }, none)
  | (fs, _, some e) =>
    ({ fields := fs, name2idx := fun _ => none, totalSize := 0, totalBits := 0 }, some e)

/-- DynamicRecord from src/main.cpp: a byte buffer bound to a schema. -/
structure DynamicRecord : Type where
  schema : BinarySchema
  buf : List Nat

/-- DynamicRecord constructor: buf(s.totalSize, 0), a zero-filled buffer. -/
def mkRecord (s : BinarySchema) : DynamicRecord :=
  ⟨s, List.replicate s.totalSize 0⟩

/-- DynamicRecord::read: is.read(buf.data(), buf.size()).  istream::read
stores the characters it managed to extract; on a short input the extracted
prefix is stored and the rest of the buffer keeps its previous contents.  No
stream state is inspected afterwards, so no failure is ever reported. -/
def DynamicRecord.read (r : DynamicRecord) (input : List Nat) : DynamicRecord :=
  ⟨r.schema, (List.range r.buf.length).map
    (fun i => if i < input.length then input.getD i 0 else r.buf.getD i 0)⟩

/-- DynamicRecord::write: os.write(buf.data(), buf.size()), emitting the
whole buffer, exactly totalSize bytes. -/
def DynamicRecord.write (r : DynamicRecord) : List Nat := r.buf

/-- Sign extension performed by the INT32 branch of getInteger:
static_cast of the loaded int32_t to int64_t, reinterpreted as uint64_t. -/
def signExt32 (x : Nat) : Nat := if x < 2 ^ 31 then x else x + (2 ^ 64 - 2 ^ 32)

/-- DynamicRecord::getInteger from src/main.cpp: look the name up, dispatch
on the field type; a BLOB field reaches the switch default and throws. -/
def DynamicRecord.getInteger (r : DynamicRecord) (nm : String) : Except String Nat :=
  match r.schema.name2idx nm with
  | none => Except.error ("Unknown field: " ++ nm)
  | some i =>
    let fd := r.schema.fields.getD i default
    if fd.type = FieldType.BITFIELD then
      Except.ok (readBits r.buf fd.bitOffset fd.bitLength)
    else
      match fd.type with
      | FieldType.UINT8 => Except.ok (leChunk fd.offset 1 r.buf)
      | FieldType.UINT16 => Except.ok (leChunk fd.offset 2 r.buf)
      | FieldType.UINT32 => Except.ok (leChunk fd.offset 4 r.buf)
      | FieldType.INT32 => Except.ok (signExt32 (leChunk fd.offset 4 r.buf))
      | _ => Except.error ("Field " ++ nm ++ " is not an integer type")

/-- Blob instantiation of DynamicRecord::getValue (T = std::vector of
uint8_t): the non-integral branch returns a copy of the fd.size bytes at
fd.offset.  Note the branch performs no check of fd.type at all. -/
def DynamicRecord.getValueBlob (r : DynamicRecord) (nm : String) : Except String (List Nat) :=
  match r.schema.name2idx nm with
  | none => Except.error ("Unknown field: " ++ nm)
  | some i =>
    let fd := r.schema.fields.getD i default
    Except.ok ((List.range fd.size).map (fun k => r.buf.getD (fd.offset + k) 0))

/-- DynamicRecord::setValue (uint64_t overload) from src/main.cpp: look the
name up, write a BITFIELD via writeBits, or memcpy the low bytes of the
value for the fixed-width kinds; a BLOB field reaches the default and
throws. -/
def DynamicRecord.setValue (r : DynamicRecord) (nm : String) (value : Nat) :
    Except String DynamicRecord :=
  match r.schema.name2idx nm with
  | none => Except.error ("Unknown field: " ++ nm)
  | some i =>
    let fd := r.schema.fields.getD i default
    if fd.type = FieldType.BITFIELD then
      Except.ok ⟨r.schema, writeBits r.buf fd.bitOffset fd.bitLength value⟩
    else
      match fd.type with
      | FieldType.UINT8 => Except.ok ⟨r.schema, storeChunk fd.offset (value % 2 ^ 8) 1 r.buf⟩
      | FieldType.UINT16 => Except.ok ⟨r.schema, storeChunk fd.offset (value % 2 ^ 16) 2 r.buf⟩
      | FieldType.UINT32 => Except.ok ⟨r.schema, storeChunk fd.offset (value % 2 ^ 32) 4 r.buf⟩
      | FieldType.INT32 => Except.ok ⟨r.schema, storeChunk fd.offset (value % 2 ^ 32) 4 r.buf⟩
      | _ => Except.error ("Field " ++ nm ++ " is not an integer type")

/-- Sum of the declared bit widths of a declaration list. -/
def sumW (l : List (String × Nat)) : Nat := (l.map Prod.snd).sum

/-- Validity of a declaration list: every bitLength passes the check
0 < bitLength && bitLength <= 64 of loadSchema; such a width is below 256,
so the uint8_t narrowing is the identity on it. -/
def validDecls (l : List (String × Nat)) : Prop := ∀ d ∈ l, 0 < d.2 ∧ d.2 ≤ 64

instance (l : List (String × Nat)) : Decidable (validDecls l) :=
  inferInstanceAs (Decidable (∀ d ∈ l, 0 < d.2 ∧ d.2 ≤ 64))

/-- Closed-form description of the fields loadSchemaAux appends when all
declarations are valid, starting from a given bit cursor; used to state and
prove layout facts about loadSchema. -/
def layout : List (String × Nat) → Nat → List FieldDesc
  | [], _ => []
  | (n, w) :: rest, cursorBits =>
    { name := n, type := FieldType.BITFIELD, size := (w + 7) / 8,
      offset := cursorBits / 8, bitOffset := cursorBits, bitLength := w }
      :: layout rest (cursorBits + w)

/-- Declarations of the boundary scenario exercised by main in src/main.cpp. -/
def demoDecls : List (String × Nat) :=
  [("version", 8), ("magic", 56), ("length", 32), ("header_length", 16), ("type", 16)]

/-! Helper lemmas about buffers and chunks. -/

/-- Setting an index of a byte list preserves its length (restates the core
lemma in the form used below). -/
theorem storeChunk_length (b0 c : Nat) :
    ∀ (n : Nat) (buf : List Nat), (storeChunk b0 c n buf).length = buf.length
  | 0, _ => rfl
  | n + 1, buf => by
      simp [storeChunk, storeChunk_length b0 c n buf]

/-- The clear loop of writeBits preserves the buffer length. -/
theorem clearLoop_length (b0 shift mask : Nat) :
    ∀ (n : Nat) (buf : List Nat), (clearLoop b0 shift mask n buf).length = buf.length
  | 0, _ => rfl
  | n + 1, buf => by
      simp [clearLoop, clearLoop_length b0 shift mask n buf]

/-- getD after set at the same in-bounds index returns the new value. -/
theorem getD_set_self : ∀ (l : List Nat) (i a : Nat), i < l.length →
    (l.set i a).getD i 0 = a
  | [], i, a, h => absurd h (by simp)
  | _ :: _, 0, a, _ => rfl
  | _ :: xs, i + 1, a, h => getD_set_self xs i a (by simpa using h)

/-- getD after set at a different index is unchanged. -/
theorem getD_set_ne : ∀ (l : List Nat) (i j a : Nat), i ≠ j →
    (l.set i a).getD j 0 = l.getD j 0
  | [], _, _, _, _ => rfl
  | _ :: _, 0, 0, _, h => absurd rfl h
  | _ :: _, 0, _ + 1, _, _ => rfl
  | _ :: _, _ + 1, 0, _, _ => rfl
  | _ :: xs, i + 1, j + 1, a, h => getD_set_ne xs i j a (fun he => h (by omega))

/-- Bytes laid down by storeChunk are the little-endian bytes of the chunk. -/
theorem storeChunk_getD (b0 c : Nat) :
    ∀ (n k : Nat) (buf : List Nat), k < n → b0 + n ≤ buf.length →
      (storeChunk b0 c n buf).getD (b0 + k) 0 = (c >>> (8 * k)) &&& 255
  | 0, k, _, hk, _ => absurd hk (by omega)
  | n + 1, k, buf, hk, hlen => by
      simp only [storeChunk]
      rcases Nat.lt_or_ge k n with hkn | hkn
      · rw [getD_set_ne _ _ _ _ (by omega)]
        exact storeChunk_getD b0 c n k buf hkn (by omega)
      · have hk' : k = n := by omega
        subst hk'
        exact getD_set_self _ _ _ (by rw [storeChunk_length]; omega)

/-- leChunk ignores a set at an index outside the bytes it reads. -/
theorem leChunk_set_outside (b0 : Nat) :
    ∀ (n j a : Nat) (buf : List Nat), (∀ k, k < n → b0 + k ≠ j) →
      leChunk b0 n (buf.set j a) = leChunk b0 n buf
  | 0, _, _, _, _ => rfl
  | n + 1, j, a, buf, h => by
      simp only [leChunk]
      rw [leChunk_set_outside b0 n j a buf (fun k hk => h k (by omega))]
      rw [getD_set_ne _ _ _ _ (fun he => h n (by omega) he.symm)]

/-- Peeling one byte off a power-of-256 remainder. -/
theorem byte_mod_succ (c n : Nat) :
    c % 2 ^ (8 * (n + 1)) = c % 2 ^ (8 * n) + ((c >>> (8 * n)) &&& 255) * 2 ^ (8 * n) := by
  have h255 : (255 : Nat) = 2 ^ 8 - 1 := by norm_num
  rw [Nat.shiftRight_eq_div_pow, h255, Nat.and_pow_two_sub_one_eq_mod]
  have hpow : (2 : Nat) ^ (8 * (n + 1)) = 2 ^ (8 * n) * 2 ^ 8 := by ring
  rw [hpow]
  have h1 : c % (2 ^ (8 * n) * 2 ^ 8) / 2 ^ (8 * n) = c / 2 ^ (8 * n) % 2 ^ 8 :=
    Nat.mod_mul_right_div_self c (2 ^ (8 * n)) (2 ^ 8)
  have h2 : c % (2 ^ (8 * n) * 2 ^ 8) % 2 ^ (8 * n) = c % 2 ^ (8 * n) :=
    Nat.mod_mod_of_dvd c (dvd_mul_right _ _)
  have h3 := Nat.div_add_mod (c % (2 ^ (8 * n) * 2 ^ 8)) (2 ^ (8 * n))
  rw [h1, h2] at h3
  calc c % (2 ^ (8 * n) * 2 ^ 8)
      = 2 ^ (8 * n) * (c / 2 ^ (8 * n) % 2 ^ 8) + c % 2 ^ (8 * n) := h3.symm
    _ = c % 2 ^ (8 * n) + c / 2 ^ (8 * n) % 2 ^ 8 * 2 ^ (8 * n) := by ring

/-- Reading back the bytes written by storeChunk recovers the chunk modulo
2 to the 8 n. -/
theorem leChunk_storeChunk (b0 c : Nat) :
    ∀ (n : Nat) (buf : List Nat), b0 + n ≤ buf.length →
      leChunk b0 n (storeChunk b0 c n buf) = c % 2 ^ (8 * n)
  | 0, buf, _ => by simp [leChunk, storeChunk, Nat.mod_one]
  | n + 1, buf, h => by
      simp only [leChunk, storeChunk]
      rw [leChunk_set_outside b0 n _ _ _ (fun k hk => by omega)]
      rw [leChunk_storeChunk b0 c n buf (by omega)]
      rw [getD_set_self _ _ _ (by rw [storeChunk_length]; omega)]
      exact (byte_mod_succ c n).symm

/-- The mask of readBits and writeBits is always the low bitWidth ones. -/
theorem mask64_eq (w : Nat) : mask64 w = 2 ^ w - 1 := by
  unfold mask64
  split
  · subst_vars; rfl
  · rw [Nat.shiftLeft_eq, Nat.one_mul]

/-- Masking with mask64 is reduction modulo 2 to the bitWidth. -/
theorem and_mask64 (x w : Nat) : x &&& mask64 w = x % 2 ^ w := by
  rw [mask64_eq, Nat.and_pow_two_sub_one_eq_mod]

/-- Central positive fact about the bit primitives: when the field's span
fits the 64-bit carrier (bitOffset mod 8 + bitWidth at most 64, i.e. a span
of at most 8 bytes) and the buffer covers the span, writing a value and
reading it back yields exactly the low bitWidth bits of the value. -/
theorem readBits_writeBits (buf : List Nat) (off w v : Nat)
    (h1 : 1 ≤ w) (h3 : off % 8 + w ≤ 64)
    (h4 : byte1 off w < buf.length) :
    readBits (writeBits buf off w v) off w = v % 2 ^ w := by
  have hb01 : byte0 off ≤ byte1 off w := by unfold byte0 byte1; omega
  have hn : byte0 off + spanBytes off w = byte1 off w + 1 := by
    unfold spanBytes; omega
  have hspan : off % 8 + w ≤ 8 * spanBytes off w := by
    unfold spanBytes byte1 byte0; omega
  have hwpos : (0 : Nat) < 2 ^ (off % 8) := Nat.pos_pow_of_pos _ (by norm_num)
  have hchunk_lt : (v % 2 ^ w) * 2 ^ (off % 8) < 2 ^ 64 := by
    calc (v % 2 ^ w) * 2 ^ (off % 8)
        < 2 ^ w * 2 ^ (off % 8) :=
          (Nat.mul_lt_mul_right hwpos).mpr (Nat.mod_lt v (Nat.pos_pow_of_pos _ (by norm_num)))
      _ = 2 ^ (w + off % 8) := (pow_add 2 w (off % 8)).symm
      _ ≤ 2 ^ 64 := Nat.pow_le_pow_right (by norm_num) (by omega)
  have hchunk_span : (v % 2 ^ w) * 2 ^ (off % 8) < 2 ^ (8 * spanBytes off w) := by
    calc (v % 2 ^ w) * 2 ^ (off % 8)
        < 2 ^ w * 2 ^ (off % 8) :=
          (Nat.mul_lt_mul_right hwpos).mpr (Nat.mod_lt v (Nat.pos_pow_of_pos _ (by norm_num)))
      _ = 2 ^ (w + off % 8) := (pow_add 2 w (off % 8)).symm
      _ ≤ 2 ^ (8 * spanBytes off w) := Nat.pow_le_pow_right (by norm_num) (by omega)
  have hch : ((v &&& mask64 w) <<< (off % 8)) % 2 ^ 64 = (v % 2 ^ w) * 2 ^ (off % 8) := by
    rw [and_mask64, Nat.shiftLeft_eq, Nat.mod_eq_of_lt hchunk_lt]
  unfold readBits writeBits
  rw [hch]
  rw [leChunk_storeChunk _ _ _ _ (by rw [clearLoop_length]; omega)]
  rw [Nat.mod_eq_of_lt hchunk_span]
  rw [Nat.mod_eq_of_lt hchunk_lt]
  rw [Nat.shiftRight_eq_div_pow, Nat.mul_div_cancel _ hwpos]
  rw [and_mask64]
  exact Nat.mod_mod_of_dvd _ dvd_rfl

/-! Lemmas about the schema compiler. -/

/-- Running loadSchemaAux over valid declarations appends exactly the layout
of those declarations and advances the cursor by their total width. -/
theorem loadSchemaAux_ok :
    ∀ (decls : List (String × Nat)) (cursor : Nat) (acc : List FieldDesc),
      validDecls decls →
      loadSchemaAux decls cursor acc = (acc ++ layout decls cursor, cursor + sumW decls, none)
  | [], cursor, acc, _ => by simp [loadSchemaAux, layout, sumW]
  | (n, w) :: rest, cursor, acc, h => by
      have hw : 0 < w ∧ w ≤ 64 := h (n, w) (List.mem_cons_self _ _)
      have hmod : w % 256 = w := Nat.mod_eq_of_lt (by omega)
      have hrest : validDecls rest := fun d hd => h d (List.mem_cons_of_mem _ hd)
      rw [loadSchemaAux, hmod, if_pos hw, loadSchemaAux_ok rest (cursor + w) _ hrest]
      simp [layout, sumW, Nat.add_assoc]

/-- Running loadSchemaAux into a declaration whose uint8_t-narrowed width is
invalid stops there with the thrown message, keeping the fields accumulated
so far. -/
theorem loadSchemaAux_err :
    ∀ (pre : List (String × Nat)) (n : String) (w : Nat) (rest : List (String × Nat))
      (cursor : Nat) (acc : List FieldDesc),
      validDecls pre → ¬(0 < w % 256 ∧ w % 256 ≤ 64) →
      loadSchemaAux (pre ++ (n, w) :: rest) cursor acc =
        (acc ++ layout pre cursor, cursor + sumW pre,
         some ("Invalid bitLength for field: " ++ n))
  | [], n, w, rest, cursor, acc, _, hw => by
      simp [loadSchemaAux, if_neg hw, layout, sumW]
  | (n0, w0) :: pre, n, w, rest, cursor, acc, h, hw => by
      have hw0 : 0 < w0 ∧ w0 ≤ 64 := h (n0, w0) (List.mem_cons_self _ _)
      have hmod0 : w0 % 256 = w0 := Nat.mod_eq_of_lt (by omega)
      have hpre : validDecls pre := fun d hd => h d (List.mem_cons_of_mem _ hd)
      rw [List.cons_append, loadSchemaAux, hmod0, if_pos hw0,
        loadSchemaAux_err pre n w rest (cursor + w0) _ hpre hw]
      simp [layout, sumW, Nat.add_assoc]

/-- The layout of a declaration list has one field per declaration. -/
theorem layout_length : ∀ (decls : List (String × Nat)) (cursor : Nat),
    (layout decls cursor).length = decls.length
  | [], _ => rfl
  | _ :: rest, cursor => by simp [layout, layout_length rest]

/-- Closed form of the i-th compiled field: its bit offset is the cursor plus
the widths of the preceding declarations, its byte offset and byte size are
the derived quotients, and its width is the declared one. -/
theorem layout_getD : ∀ (decls : List (String × Nat)) (cursor i : Nat),
    i < decls.length →
    (layout decls cursor).getD i default =
      { name := (decls.getD i ("", 0)).1, type := FieldType.BITFIELD,
        size := ((decls.getD i ("", 0)).2 + 7) / 8,
        offset := (cursor + sumW (decls.take i)) / 8,
        bitOffset := cursor + sumW (decls.take i),
        bitLength := (decls.getD i ("", 0)).2 }
  | [], _, i, hi => absurd hi (by simp)
  | (n, w) :: rest, cursor, 0, _ => by simp [layout, sumW]
  | (n, w) :: rest, cursor, i + 1, hi => by
      have := layout_getD rest (cursor + w) i (by simpa using hi)
      simp only [layout, List.getD_cons_succ, List.take_succ_cons]
      rw [this]
      simp [sumW, Nat.add_assoc]

/-- loadSchema on valid declarations: the compiled schema in closed form. -/
theorem loadSchema_ok (decls : List (String × Nat)) (h : validDecls decls) :
    loadSchema decls =
      ({ fields := layout decls 0, name2idx := buildIdx (layout decls 0) 0,
         totalSize := (sumW decls + 7) / 8, totalBits := sumW decls }, none) := by
  unfold loadSchema
  rw [loadSchemaAux_ok decls 0 [] h]
  simp

/-- buildIdx returns none exactly when no field bears the name. -/
theorem buildIdx_none : ∀ (fs : List FieldDesc) (base : Nat) (s : String),
    buildIdx fs base s = none ↔ ∀ k, k < fs.length → (fs.getD k default).name ≠ s
  | [], base, s => by simp [buildIdx]
  | fd :: rest, base, s => by
      rcases hrest : buildIdx rest (base + 1) s with _ | j
      · have hr := (buildIdx_none rest (base + 1) s).mp hrest
        simp only [buildIdx, hrest]
        constructor
        · intro hnone k hk
          match k with
          | 0 =>
            simp only [List.getD_cons_zero]
            intro hname
            rw [if_pos hname] at hnone
            exact Option.noConfusion hnone
          | k + 1 =>
            simp only [List.getD_cons_succ]
            exact hr k (by simpa using hk)
        · intro hall
          have h0 : fd.name ≠ s := by
            have := hall 0 (by simp)
            simpa using this
          rw [if_neg h0]
      · simp only [buildIdx, hrest]
        constructor
        · intro hnone; exact Option.noConfusion hnone
        · intro hall
          have hne : buildIdx rest (base + 1) s = none :=
            (buildIdx_none rest (base + 1) s).mpr
              (fun k hk => by
                have := hall (k + 1) (by simpa using hk)
                simpa using this)
          rw [hrest] at hne
          exact Option.noConfusion hne

/-- When buildIdx resolves a name, it resolves it to the last field bearing
that name: the witness index is in range, its field has the name, and no
later field has it. -/
theorem buildIdx_some : ∀ (fs : List FieldDesc) (base : Nat) (s : String) (j : Nat),
    buildIdx fs base s = some j →
    ∃ k, k < fs.length ∧ j = base + k ∧ (fs.getD k default).name = s ∧
      ∀ m, k < m → m < fs.length → (fs.getD m default).name ≠ s
  | [], base, s, j => by simp [buildIdx]
  | fd :: rest, base, s, j => by
      rcases hrest : buildIdx rest (base + 1) s with _ | j2
      · simp only [buildIdx, hrest]
        by_cases hname : fd.name = s
        · rw [if_pos hname]
          intro hsome
          have hj : base = j := by injection hsome
          have hr := (buildIdx_none rest (base + 1) s).mp hrest
          refine ⟨0, by simp, by omega, by simpa using hname, ?_⟩
          intro m hm0 hmlen
          match m with
          | m + 1 =>
            simp only [List.getD_cons_succ]
            exact hr m (by simpa using hmlen)
        · rw [if_neg hname]
          intro hsome
          exact Option.noConfusion hsome
      · simp only [buildIdx, hrest]
        intro hsome
        have hjj : j2 = j := by injection hsome
        obtain ⟨k, hk, hj, hkname, hlater⟩ := buildIdx_some rest (base + 1) s j2 hrest
        refine ⟨k + 1, by simpa using hk, by omega, by simpa using hkname, ?_⟩
        intro m hm0 hmlen
        match m with
        | m + 1 =>
          simp only [List.getD_cons_succ]
          exact hlater m (by omega) (by simpa using hmlen)

/-! Claim theorems. -/

/-- Declarations of the packed sub-byte example of the specification: a
3-bit field a and a 5-bit field b sharing one byte. -/
def packedDecls : List (String × Nat) := [("a", 3), ("b", 5)]

/-- C1: the claim fails on the code.  With fields a (3 bits) and b (5 bits)
packed into one byte, b holds 31; writing a then zeroes the bits of b,
because the final memcpy of writeBits overwrites the whole shared byte with
the chunk bytes (whose bits outside the written field are zero) instead of
OR-merging into the cleared span.  getInteger b returns 31 before the write
to a and 0 after it. -/
theorem C1_writeClobbersNeighbor :
    (((mkRecord (loadSchema packedDecls).1).setValue "b" 31).bind
        (fun r => r.getInteger "b")) = Except.ok 31 ∧
    ((((mkRecord (loadSchema packedDecls).1).setValue "b" 31).bind
        (fun r => r.setValue "a" 6)).bind
        (fun r => r.getInteger "b")) = Except.ok 0 ∧
    (31 : Nat) ≠ 0 :=
  ⟨rfl, rfl, by decide⟩

/-- C2: the claim fails on the code.  Setting a to 5 and then b to 1 on the
packed schema destroys the stored value of a (writeBits overwrites the
shared byte); serialize and deserialize then faithfully copy the corrupted
buffer, so get of a after the round trip returns 0, not the 5 originally
set, while b returns its 1. -/
theorem C2_roundTripLosesSetValue :
    ((((mkRecord (loadSchema packedDecls).1).setValue "a" 5).bind
        (fun r => r.setValue "b" 1)).bind
        (fun r => ((mkRecord (loadSchema packedDecls).1).read r.write).getInteger "a"))
      = Except.ok 0 ∧
    ((((mkRecord (loadSchema packedDecls).1).setValue "a" 5).bind
        (fun r => r.setValue "b" 1)).bind
        (fun r => ((mkRecord (loadSchema packedDecls).1).read r.write).getInteger "b"))
      = Except.ok 1 ∧
    (5 : Nat) ≠ 0 :=
  ⟨rfl, rfl, by decide⟩

/-- C3 counterexample: schema compilation accepts a 64-bit field at bit
offset 1 (declarations a:1 then b:64), and the byte span the primitives
compute for that field is 9 bytes, not at most 8 as the claim states; the
memcpy count byte1 - byte0 + 1 therefore exceeds the 8-byte carrier. -/
theorem C3_nineByteSpan :
    (loadSchema [("a", 1), ("b", 64)]).2 = none ∧
    ((loadSchema [("a", 1), ("b", 64)]).1.fields.getD 1 default).bitOffset = 1 ∧
    ((loadSchema [("a", 1), ("b", 64)]).1.fields.getD 1 default).bitLength = 64 ∧
    spanBytes 1 64 = 9 ∧ ¬ spanBytes 1 64 ≤ 8 :=
  ⟨rfl, rfl, rfl, rfl, by decide⟩

/-- C3 amended: for a compiled field (1 ≤ bitWidth ≤ 64, arbitrary bit
offset) the touched byte span is at most 9 bytes, and it is at most 8 bytes
(so the memcpy stays within the 64-bit carrier) exactly when
bitOffset mod 8 + bitWidth ≤ 64. -/
theorem C3_spanBound (off w : Nat) (h1 : 1 ≤ w) (h2 : w ≤ 64) :
    spanBytes off w ≤ 9 ∧ (spanBytes off w ≤ 8 ↔ off % 8 + w ≤ 64) := by
  unfold spanBytes byte1 byte0
  omega

/-- Witness for C3_spanBound at offset 12, width 64: the span is 9 bytes. -/
theorem C3_spanBound_witness :
    spanBytes 12 64 ≤ 9 ∧ (spanBytes 12 64 ≤ 8 ↔ 12 % 8 + 64 ≤ 64) :=
  C3_spanBound 12 64 (by decide) (by decide)

/-- C4: the boundary scenario of the specification, evaluated on the model:
compiling the five demo declarations yields totalBits 128 and totalSize 16,
and setting version, magic, length, header_length and type, serializing,
deserializing into a fresh record and reading all five fields returns the
original values (all five fields are byte-aligned with byte-multiple widths,
so the writeBits overwrite defect cannot manifest here). -/
theorem C4_boundaryScenario :
    (loadSchema demoDecls).2 = none ∧
    (loadSchema demoDecls).1.totalBits = 128 ∧
    (loadSchema demoDecls).1.totalSize = 16 ∧
    ((((((mkRecord (loadSchema demoDecls).1).setValue "version" 1).bind
        (fun r => r.setValue "magic" 0x123456789abcde)).bind
        (fun r => r.setValue "length" 0x1357)).bind
        (fun r => r.setValue "header_length" 0x48)).bind
        (fun r => r.setValue "type" 0xab)).bind
        (fun r =>
          ((((mkRecord (loadSchema demoDecls).1).read r.write).getInteger "version").bind
            (fun a =>
          ((((mkRecord (loadSchema demoDecls).1).read r.write).getInteger "magic").bind
            (fun b =>
          ((((mkRecord (loadSchema demoDecls).1).read r.write).getInteger "length").bind
            (fun c =>
          ((((mkRecord (loadSchema demoDecls).1).read r.write).getInteger "header_length").bind
            (fun d =>
          ((((mkRecord (loadSchema demoDecls).1).read r.write).getInteger "type").map
            (fun e => (a, b, c, d, e))))))))))))
      = Except.ok (1, 0x123456789abcde, 0x1357, 0x48, 0xab) :=
  ⟨rfl, rfl, rfl, rfl⟩

/-- C5: layout determinism of schema compilation.  For valid declarations,
compilation succeeds, totalBits is the sum of the widths, totalSize is the
ceiling of totalBits over 8 (pinned by the two inequalities), there is one
field per declaration, and field i starts at the sum of the preceding
widths with byte offset and byte size derived as the quotients. -/
theorem C5_layoutContiguous (decls : List (String × Nat)) (i : Nat)
    (h : validDecls decls) (hi : i < decls.length) :
    (loadSchema decls).2 = none ∧
    (loadSchema decls).1.totalBits = sumW decls ∧
    (loadSchema decls).1.totalSize = (sumW decls + 7) / 8 ∧
    sumW decls ≤ 8 * (loadSchema decls).1.totalSize ∧
    8 * (loadSchema decls).1.totalSize < sumW decls + 8 ∧
    (loadSchema decls).1.fields.length = decls.length ∧
    ((loadSchema decls).1.fields.getD i default).bitOffset = sumW (decls.take i) ∧
    ((loadSchema decls).1.fields.getD i default).offset = sumW (decls.take i) / 8 ∧
    ((loadSchema decls).1.fields.getD i default).bitLength = (decls.getD i ("", 0)).2 ∧
    ((loadSchema decls).1.fields.getD i default).size =
      ((decls.getD i ("", 0)).2 + 7) / 8 := by
  rw [loadSchema_ok decls h]
  dsimp only
  rw [layout_getD decls 0 i hi, layout_length]
  dsimp only
  refine ⟨rfl, rfl, rfl, by omega, by omega, rfl, by simp, by simp, rfl, rfl⟩

/-- Witness for C5_layoutContiguous at the demo declarations and i = 2: the
length field starts at bit 64 with byte offset 8 and byte size 4. -/
theorem C5_layoutContiguous_witness :
    (loadSchema demoDecls).2 = none ∧
    (loadSchema demoDecls).1.totalBits = sumW demoDecls ∧
    (loadSchema demoDecls).1.totalSize = (sumW demoDecls + 7) / 8 ∧
    sumW demoDecls ≤ 8 * (loadSchema demoDecls).1.totalSize ∧
    8 * (loadSchema demoDecls).1.totalSize < sumW demoDecls + 8 ∧
    (loadSchema demoDecls).1.fields.length = demoDecls.length ∧
    ((loadSchema demoDecls).1.fields.getD 2 default).bitOffset = sumW (demoDecls.take 2) ∧
    ((loadSchema demoDecls).1.fields.getD 2 default).offset = sumW (demoDecls.take 2) / 8 ∧
    ((loadSchema demoDecls).1.fields.getD 2 default).bitLength = (demoDecls.getD 2 ("", 0)).2 ∧
    ((loadSchema demoDecls).1.fields.getD 2 default).size =
      ((demoDecls.getD 2 ("", 0)).2 + 7) / 8 :=
  C5_layoutContiguous demoDecls 2 (by decide) (by decide)

/-- C6 counterexample: for the 64-bit field b at bit offset 1 (a 9-byte
span), setting b to 2 to the 63 and reading it back yields 0, not
2 to the 63 modulo 2 to the 64: the 64-bit chunk (value AND mask) << 1
discards bit 63 before the bytes are stored (and the 9-byte memcpy
additionally overruns the 8-byte carrier in the C++ code). -/
theorem C6_maskLostBeyondCarrier :
    (((mkRecord (loadSchema [("a", 1), ("b", 64)]).1).setValue "b" (2 ^ 63)).bind
        (fun r => r.getInteger "b")) = Except.ok 0 ∧
    2 ^ 63 % 2 ^ 64 ≠ 0 :=
  ⟨rfl, by decide⟩

/-- C6 amended: for a BITFIELD whose span fits the 64-bit carrier
(bitOffset mod 8 + bitLength at most 64) and whose span lies inside the
buffer, setValue followed by getInteger on the same field returns exactly
the low bitLength bits of the value; high bits are silently discarded. -/
theorem C6_maskWithinCarrier (r : DynamicRecord) (s : String) (i v : Nat)
    (hidx : r.schema.name2idx s = some i)
    (hty : (r.schema.fields.getD i default).type = FieldType.BITFIELD)
    (h1 : 1 ≤ (r.schema.fields.getD i default).bitLength)
    (h3 : (r.schema.fields.getD i default).bitOffset % 8 +
        (r.schema.fields.getD i default).bitLength ≤ 64)
    (h4 : byte1 (r.schema.fields.getD i default).bitOffset
        (r.schema.fields.getD i default).bitLength < r.buf.length) :
    (r.setValue s v).bind (fun r2 => r2.getInteger s) =
      Except.ok (v % 2 ^ (r.schema.fields.getD i default).bitLength) := by
  have hsv : r.setValue s v = Except.ok
      ⟨r.schema, writeBits r.buf (r.schema.fields.getD i default).bitOffset
        (r.schema.fields.getD i default).bitLength v⟩ := by
    simp only [DynamicRecord.setValue, hidx]
    rw [if_pos hty]
  rw [hsv]
  simp only [Except.bind]
  simp only [DynamicRecord.getInteger, hidx]
  rw [if_pos hty]
  rw [readBits_writeBits r.buf _ _ v h1 h3 h4]

/-- Witness for C6_maskWithinCarrier: a 4-bit field set to 31 (0x1F) reads
back as 31 mod 16 = 15 (0xF), the example of the specification. -/
theorem C6_maskWithinCarrier_witness :
    ((mkRecord (loadSchema [("n4", 4)]).1).setValue "n4" 31).bind
        (fun r2 => r2.getInteger "n4") =
      Except.ok (31 % 2 ^
        ((mkRecord (loadSchema [("n4", 4)]).1).schema.fields.getD 0 default).bitLength) :=
  C6_maskWithinCarrier (mkRecord (loadSchema [("n4", 4)]).1) "n4" 0 31
    rfl rfl (by decide) (by decide) (by decide)

/-- C7 counterexample: compiling a:3 then b:0 throws the invalid-bitLength
error for b, but the schema object is left holding the one field compiled
before the throw: the claim that no compiled field remains is false. -/
theorem C7_partialFieldsRemain :
    (loadSchema [("a", 3), ("b", 0)]).2 = some ("Invalid bitLength for field: b") ∧
    (loadSchema [("a", 3), ("b", 0)]).1.fields.length = 1 ∧
    (loadSchema [("a", 3), ("b", 0)]).1.fields.length ≠ 0 :=
  ⟨rfl, rfl, by decide⟩

/-- C7 amended: a declared width is narrowed to uint8_t (modulo 256) before
validation, so only a narrowed width of 0 or exceeding 64 is invalid (a
declared 320 wraps to 64 and compiles).  Compilation of a declaration list
whose first such invalid declaration sits after a valid prefix fails with
the error naming that field and stops there; but the schema object keeps the
fields of the valid prefix (a partial schema is produced), while totalBits,
totalSize and the name map stay at their default-constructed empty
values. -/
theorem C7_abortKeepsPrefix (pre : List (String × Nat)) (n : String) (w : Nat)
    (rest : List (String × Nat)) (s : String)
    (hpre : validDecls pre) (hw : ¬(0 < w % 256 ∧ w % 256 ≤ 64)) :
    (loadSchema (pre ++ (n, w) :: rest)).2 = some ("Invalid bitLength for field: " ++ n) ∧
    (loadSchema (pre ++ (n, w) :: rest)).1.fields = layout pre 0 ∧
    (loadSchema (pre ++ (n, w) :: rest)).1.fields.length = pre.length ∧
    (loadSchema (pre ++ (n, w) :: rest)).1.totalBits = 0 ∧
    (loadSchema (pre ++ (n, w) :: rest)).1.totalSize = 0 ∧
    (loadSchema (pre ++ (n, w) :: rest)).1.name2idx s = none := by
  unfold loadSchema
  rw [loadSchemaAux_err pre n w rest 0 [] hpre hw]
  exact ⟨rfl, by simp, by simp [layout_length], rfl, rfl, rfl⟩

/-- Witness for C7_abortKeepsPrefix: prefix a:3, offending field b:65. -/
theorem C7_abortKeepsPrefix_witness :
    (loadSchema ([("a", 3)] ++ ("b", 65) :: [])).2 =
      some ("Invalid bitLength for field: " ++ "b") ∧
    (loadSchema ([("a", 3)] ++ ("b", 65) :: [])).1.fields = layout [("a", 3)] 0 ∧
    (loadSchema ([("a", 3)] ++ ("b", 65) :: [])).1.fields.length = [("a", 3)].length ∧
    (loadSchema ([("a", 3)] ++ ("b", 65) :: [])).1.totalBits = 0 ∧
    (loadSchema ([("a", 3)] ++ ("b", 65) :: [])).1.totalSize = 0 ∧
    (loadSchema ([("a", 3)] ++ ("b", 65) :: [])).1.name2idx "a" = none :=
  C7_abortKeepsPrefix [("a", 3)] "b" 65 [] "a" (by decide) (by decide)

/-- Fidelity evidence for the uint8_t narrowing of the declared width: a
declared bitLength of 320 wraps to 64 before the validity check, so the
declaration compiles successfully as a 64-bit field rather than being
rejected. -/
theorem loadSchema_narrowsWidthMod256 :
    (loadSchema [("big", 320)]).2 = none ∧
    ((loadSchema [("big", 320)]).1.fields.getD 0 default).bitLength = 64 ∧
    (loadSchema [("big", 320)]).1.totalBits = 64 :=
  ⟨rfl, rfl, rfl⟩

/-- C8 counterexample: a repeated name is not rejected.  Compiling a:3 then
a:5 succeeds (no error at all, hence no DuplicateField error), and the name
map silently resolves a to index 1, the later declaration. -/
theorem C8_duplicateAccepted :
    (loadSchema [("a", 3), ("a", 5)]).2 = none ∧
    (loadSchema [("a", 3), ("a", 5)]).1.name2idx "a" = some 1 ∧
    (loadSchema [("a", 3), ("a", 5)]).1.fields.length = 2 :=
  ⟨rfl, rfl, rfl⟩

/-- C8 amended: compilation never fails on a repeated name; the name map
silently shadows earlier declarations, resolving each name to the index of
its last declaration bearing it — the resolved index carries the name and no
later declaration does. -/
theorem C8_lastOccurrenceWins (decls : List (String × Nat)) (s : String) (j m : Nat)
    (h : validDecls decls) (hj : (loadSchema decls).1.name2idx s = some j)
    (hjm : j < m) (hm : m < decls.length) :
    (loadSchema decls).2 = none ∧ j < decls.length ∧
    (decls.getD j ("", 0)).1 = s ∧ (decls.getD m ("", 0)).1 ≠ s := by
  rw [loadSchema_ok decls h] at hj ⊢
  dsimp only at hj ⊢
  obtain ⟨k, hk, hjk, hkname, hlater⟩ := buildIdx_some (layout decls 0) 0 s j hj
  have hklen : k < decls.length := by rw [layout_length] at hk; exact hk
  have hjeq : j = k := by omega
  subst hjeq
  have hmlen : m < (layout decls 0).length := by rw [layout_length]; exact hm
  have hmname := hlater m hjm hmlen
  rw [layout_getD decls 0 j hklen] at hkname
  rw [layout_getD decls 0 m hm] at hmname
  exact ⟨rfl, hklen, hkname, hmname⟩

/-- Witness for C8_lastOccurrenceWins: in a,b,a,c the name a resolves to
index 2 (its last occurrence) and index 3 bears a different name. -/
theorem C8_lastOccurrenceWins_witness :
    (loadSchema [("a", 3), ("b", 5), ("a", 4), ("c", 2)]).2 = none ∧
    2 < ([("a", 3), ("b", 5), ("a", 4), ("c", 2)] : List (String × Nat)).length ∧
    (([("a", 3), ("b", 5), ("a", 4), ("c", 2)] : List (String × Nat)).getD 2 ("", 0)).1 = "a" ∧
    (([("a", 3), ("b", 5), ("a", 4), ("c", 2)] : List (String × Nat)).getD 3 ("", 0)).1 ≠ "a" :=
  C8_lastOccurrenceWins [("a", 3), ("b", 5), ("a", 4), ("c", 2)] "a" 2 3
    (by decide) rfl (by decide) (by decide)

/-- C9 counterexample: deserializing from an input one byte short of
totalSize = 2 completes without any error and leaves the second buffer byte
at its previous value (a partial decode): the stale byte 187 remains visible
through getInteger of y.  No TruncatedInput failure exists in the code. -/
theorem C9_shortInputPartialDecode :
    (loadSchema [("x", 8), ("y", 8)]).1.totalSize = 2 ∧
    ((DynamicRecord.mk (loadSchema [("x", 8), ("y", 8)]).1 [170, 187]).read [17]).buf
      = [17, 187] ∧
    ((DynamicRecord.mk (loadSchema [("x", 8), ("y", 8)]).1 [170, 187]).read [17]).getInteger "y"
      = Except.ok 187 :=
  ⟨rfl, rfl, rfl⟩

/-- C9 amended: read copies the input bytes into the buffer prefix (up to
the buffer length) and keeps the previous contents beyond the input length;
it always returns a record of the same schema and buffer size, reporting no
error for a short input. -/
theorem C9_readPartialNoError (r : DynamicRecord) (input : List Nat) (i : Nat)
    (hi : i < r.buf.length) :
    (r.read input).schema = r.schema ∧
    (r.read input).buf.length = r.buf.length ∧
    (r.read input).buf.getD i 0 =
      (if i < input.length then input.getD i 0 else r.buf.getD i 0) := by
  refine ⟨rfl, by simp [DynamicRecord.read], ?_⟩
  simp only [DynamicRecord.read]
  rw [List.getD_eq_getElem?_getD, List.getElem?_map, List.getElem?_range hi]
  rfl

/-- Witness for C9_readPartialNoError at the 2-byte record, 1-byte input,
index 1 (past the input: the stale byte stays). -/
theorem C9_readPartialNoError_witness :
    ((DynamicRecord.mk (loadSchema [("x", 8), ("y", 8)]).1 [170, 187]).read [17]).schema =
      (DynamicRecord.mk (loadSchema [("x", 8), ("y", 8)]).1 [170, 187]).schema ∧
    ((DynamicRecord.mk (loadSchema [("x", 8), ("y", 8)]).1 [170, 187]).read [17]).buf.length =
      (DynamicRecord.mk (loadSchema [("x", 8), ("y", 8)]).1 [170, 187]).buf.length ∧
    ((DynamicRecord.mk (loadSchema [("x", 8), ("y", 8)]).1 [170, 187]).read [17]).buf.getD 1 0 =
      (if 1 < ([17] : List Nat).length then ([17] : List Nat).getD 1 0
       else (DynamicRecord.mk (loadSchema [("x", 8), ("y", 8)]).1 [170, 187]).buf.getD 1 0) :=
  C9_readPartialNoError (DynamicRecord.mk (loadSchema [("x", 8), ("y", 8)]).1 [170, 187])
    [17] 1 (by decide)

/-- C10 counterexample: the blob accessor on a BITFIELD field does not fail:
field a of the packed schema is a bitfield (not BLOB), yet getValueBlob
returns its byte span successfully instead of a TypeMismatch error. -/
theorem C10_blobAccessorUnchecked :
    ((mkRecord (loadSchema packedDecls).1).getValueBlob "a") = Except.ok [0] ∧
    ((loadSchema packedDecls).1.fields.getD 0 default).type ≠ FieldType.BLOB :=
  ⟨rfl, by decide⟩

/-- C10 amended: getInteger on a BLOB field fails with the
not-an-integer-type error (the TypeMismatch of the specification), while
getValueBlob succeeds on a field of any kind, returning the size bytes at
the field's byte offset without checking the kind.  Both accessors are pure:
they never modify the record. -/
theorem C10_accessorDispatch (r : DynamicRecord) (s : String) (i : Nat)
    (hidx : r.schema.name2idx s = some i) :
    ((r.schema.fields.getD i default).type = FieldType.BLOB →
      r.getInteger s = Except.error ("Field " ++ s ++ " is not an integer type")) ∧
    r.getValueBlob s =
      Except.ok ((List.range (r.schema.fields.getD i default).size).map
        (fun k => r.buf.getD ((r.schema.fields.getD i default).offset + k) 0)) := by
  constructor
  · intro hty
    simp only [DynamicRecord.getInteger, hidx]
    rw [if_neg (show ¬(r.schema.fields.getD i default).type = FieldType.BITFIELD by
      rw [hty]; simp)]
    rw [hty]
  · simp only [DynamicRecord.getValueBlob, hidx]

/-- Field descriptor of BLOB kind, exercising the kind the compiled schemas
never produce but the codec dispatches on. -/
def blobField : FieldDesc :=
  { name := "p", type := FieldType.BLOB, size := 2, offset := 0,
    bitOffset := 0, bitLength := 0 }

/-- Schema literal with one BLOB field and the name map the C++ loop would
build for it. -/
def blobSchema : BinarySchema :=
  { fields := [blobField], name2idx := buildIdx [blobField] 0,
    totalSize := 2, totalBits := 0 }

/-- Witness for C10_accessorDispatch on a record over blobSchema. -/
theorem C10_accessorDispatch_witness :
    (((DynamicRecord.mk blobSchema [7, 9]).schema.fields.getD 0 default).type =
        FieldType.BLOB →
      (DynamicRecord.mk blobSchema [7, 9]).getInteger "p" =
        Except.error ("Field " ++ "p" ++ " is not an integer type")) ∧
    (DynamicRecord.mk blobSchema [7, 9]).getValueBlob "p" =
      Except.ok ((List.range
          ((DynamicRecord.mk blobSchema [7, 9]).schema.fields.getD 0 default).size).map
        (fun k => (DynamicRecord.mk blobSchema [7, 9]).buf.getD
          (((DynamicRecord.mk blobSchema [7, 9]).schema.fields.getD 0 default).offset + k) 0)) :=
  C10_accessorDispatch (DynamicRecord.mk blobSchema [7, 9]) "p" 0 (by decide)
